import Mathlib

/-!
Verification development for an SSTV-style image-to-audio encoder.

The encoder builds a list of tone segments (frequency in Hz, duration in
milliseconds): a 13-segment VIS header, then per image row a fixed framing
pattern around three per-channel scan sequences, and finally renders the
segment list to PCM samples with a single running time accumulator.

Machine floats (`f32`/`f64`) are modelled as exact rationals for all
structural data (frequencies, durations, the time accumulator) and as real
numbers where the sine function is involved (sample values).
-/

namespace SSTV

/-- A tone segment: transmit `frequency` (Hz) for `duration` (ms). -/
structure FreqDur where
  frequency : ℚ
  duration : ℚ
  deriving DecidableEq, Repr

/-- Constructor mirroring the source's `transmit(freq, dur)`. -/
def transmit (freq : ℚ) (dur : ℚ) : FreqDur :=
  { frequency := freq, duration := dur }

/-- The fixed calibration preamble constant `HEADER` from the source. -/
def HEADER : List FreqDur :=
  [transmit 500 1000, transmit 1900 300, transmit 1200 10,
   transmit 1900 300, transmit 1200 10]

/-- The source's local `digital(bit)` helper: bit 1 ↦ 1100 Hz, bit 0 ↦ 1300 Hz,
each 30 ms. -/
def digital (bit : Bool) : FreqDur :=
  if bit then transmit 1100 30 else transmit 1300 30

/-- One entry of `build_header`'s `array::from_fn` closure. Indices outside
`0..=12` hit the source's `unreachable!()`, modelled as `none`. The bit test
mirrors the source exactly: `(vis_code >> (idx - 4)) != 0` (note: no `& 1`). -/
def buildHeaderEntry (vis_code : ℕ) (parity_even : Bool) (idx : ℕ) : Option FreqDur :=
  if idx ≤ 3 then HEADER[idx]?
  else if idx ≤ 10 then some (digital (vis_code >>> (idx - 4) != 0))
  else if idx = 11 then some (digital parity_even)
  else if idx = 12 then some (transmit 1200 30)
  else none

/-- `build_header(vis_code, parity_even)`: the 13 entries produced by
`array::from_fn` over indices `0..=12`. -/
def build_header (vis_code : ℕ) (parity_even : Bool) : List (Option FreqDur) :=
  (List.range 13).map (buildHeaderEntry vis_code parity_even)

/-- The 13 header segments, with the (never-hit) `unreachable!` entries
dropped. -/
def headerList (vis_code : ℕ) (parity_even : Bool) : List FreqDur :=
  (build_header vis_code parity_even).filterMap id

/-- Decode one header segment back to a bit value, per the spec's decoding
rule: frequency 1100 ↦ 1, anything else (1300) ↦ 0. -/
def freqToBit (f : ℚ) : ℕ :=
  if f = 1100 then 1 else 0

/-- Decode segments 4–10 of a header, least-significant bit first, as the
spec's round-trip property prescribes. -/
def decodeVis (l : List FreqDur) : ℕ :=
  ((List.range 7).map
    (fun k => freqToBit ((l.getD (4 + k) (transmit 0 0)).frequency) * 2 ^ k)).sum

/-- `build_header` unfolded to its 13 explicit entries. -/
theorem build_header_eq (m : ℕ) (p : Bool) :
    build_header m p =
      [some (transmit 500 1000), some (transmit 1900 300), some (transmit 1200 10),
       some (transmit 1900 300),
       some (digital (m >>> 0 != 0)), some (digital (m >>> 1 != 0)),
       some (digital (m >>> 2 != 0)), some (digital (m >>> 3 != 0)),
       some (digital (m >>> 4 != 0)), some (digital (m >>> 5 != 0)),
       some (digital (m >>> 6 != 0)),
       some (digital p), some (transmit 1200 30)] := by
  rfl

/-- `headerList` unfolded to its 13 explicit segments. -/
theorem headerList_eq (m : ℕ) (p : Bool) :
    headerList m p =
      [transmit 500 1000, transmit 1900 300, transmit 1200 10, transmit 1900 300,
       digital (m >>> 0 != 0), digital (m >>> 1 != 0), digital (m >>> 2 != 0),
       digital (m >>> 3 != 0), digital (m >>> 4 != 0), digital (m >>> 5 != 0),
       digital (m >>> 6 != 0), digital p, transmit 1200 30] := by
  rfl

/-- C3: for every mode code `m` and parity flag `p`, the header builder
returns exactly 13 segments; segments 0–3 are the fixed calibration preamble,
independent of `m` and `p`; segment 11 is the parity flag through the
bit-to-frequency mapping; segment 12 is the stop segment (1200 Hz, 30 ms). -/
theorem header_shape (m : ℕ) (p : Bool) :
    (headerList m p).length = 13 ∧
    (headerList m p).take 4 =
      [transmit 500 1000, transmit 1900 300, transmit 1200 10, transmit 1900 300] ∧
    (headerList m p)[11]? = some (digital p) ∧
    (headerList m p)[12]? = some (transmit 1200 30) := by
  rw [headerList_eq]
  refine ⟨rfl, rfl, rfl, rfl⟩

/-- C2 counterexample: for mode code 2, decoding segments 4–10 by the
1100↦1 / 1300↦0 rule does not reconstruct the low 7 bits of 2. The source
tests `(vis_code >> k) != 0` instead of bit `k`, so for `m = 2` segment 4
(bit 0) is emitted at 1100 Hz although bit 0 of 2 is 0; the decoded value
is 3, not 2. -/
theorem header_bit_roundtrip_fails : decodeVis (headerList 2 false) ≠ 2 % 128 := by
  decide

/-- C10: `build_header` is total. For every `vis_code ≤ 255` and parity flag,
every index below 13 yields a real entry (the `unreachable!()` branch,
modelled as `none`, is never taken) and the result has exactly 13 entries. -/
theorem build_header_total (m : ℕ) (p : Bool) (_hm : m ≤ 255) :
    (∀ idx, idx < 13 → (buildHeaderEntry m p idx).isSome = true) ∧
    (build_header m p).length = 13 := by
  constructor
  · intro idx hidx
    interval_cases idx <;> rfl
  · rw [build_header_eq]
    rfl

/-- C10 witness: the totality theorem instantiated at the program's actual
arguments, vis code 60 with even parity false. -/
theorem build_header_total_witness :
    60 ≤ 255 ∧
    ((∀ idx, idx < 13 → (buildHeaderEntry 60 false idx).isSome = true) ∧
      (build_header 60 false).length = 13) :=
  ⟨by decide, build_header_total 60 false (by decide)⟩

/-- A pixel's three channel intensities (`Rgba<u8>` with alpha ignored, as in
the source, which only reads components 0, 1, 2). -/
structure Pixel where
  r : ℕ
  g : ℕ
  b : ℕ

/-- The source's `color_to_freq`:
`(col as f32).mul((2300.0 - 1500.0) / 255.0).add(1500.0)`. -/
def color_to_freq (col : ℕ) : ℚ :=
  (col : ℚ) * ((2300 - 1500) / 255) + 1500

/-- The `Scans` row buffer: a per-pixel duration and three per-channel
segment sequences. -/
structure Scans where
  pixel_dur : ℚ
  red_samples : List FreqDur
  green_samples : List FreqDur
  blue_samples : List FreqDur

/-- `Scans::new(pixel_dur)`. -/
def Scans.new (pixel_dur : ℚ) : Scans :=
  { pixel_dur := pixel_dur, red_samples := [], green_samples := [], blue_samples := [] }

/-- `Scans::clear`: empty the three channel buffers, keep the duration. -/
def Scans.clear (s : Scans) : Scans :=
  { s with red_samples := [], green_samples := [], blue_samples := [] }

/-- `Scans::push_pixel`: append one segment per channel, each of the
configured per-pixel duration. -/
def Scans.push_pixel (s : Scans) (px : Pixel) : Scans :=
  { s with
    red_samples := s.red_samples ++ [transmit (color_to_freq px.r) s.pixel_dur],
    green_samples := s.green_samples ++ [transmit (color_to_freq px.g) s.pixel_dur],
    blue_samples := s.blue_samples ++ [transmit (color_to_freq px.b) s.pixel_dur] }

/-- The inner pixel loop of `main`: push every pixel of a row, left to
right. -/
def processRow (s : Scans) (row : List Pixel) : Scans :=
  row.foldl Scans.push_pixel s

/-- The porch segment `transmit(1500.0, 1.5)` from `main`'s row loop. -/
def porch : FreqDur := transmit 1500 1.5

/-- The sync pulse `transmit(1200.0, 9.0)`. -/
def syncPulse : FreqDur := transmit 1200 9

/-- The segments `main` appends to the stream for one row, given the filled
row buffer: porch, green scan, porch, blue scan, sync, porch, red scan. -/
def rowFrame (s : Scans) : List FreqDur :=
  [porch] ++ s.green_samples ++ [porch] ++ s.blue_samples ++
    [syncPulse] ++ [porch] ++ s.red_samples

/-- `main`'s row loop: fill the buffer from the row, append the row frame,
clear the buffer, continue with the next row. -/
def encodeRows : List (List Pixel) → Scans → List FreqDur
  | [], _ => []
  | row :: rest, s =>
    rowFrame (processRow s row) ++ encodeRows rest (processRow s row).clear

/-- `processRow` in closed form: it appends one mapped segment per pixel to
each channel buffer and leaves the duration unchanged. -/
theorem processRow_eq (s : Scans) (row : List Pixel) :
    processRow s row =
      { pixel_dur := s.pixel_dur,
        red_samples := s.red_samples ++
          row.map (fun px => transmit (color_to_freq px.r) s.pixel_dur),
        green_samples := s.green_samples ++
          row.map (fun px => transmit (color_to_freq px.g) s.pixel_dur),
        blue_samples := s.blue_samples ++
          row.map (fun px => transmit (color_to_freq px.b) s.pixel_dur) } := by
  induction row generalizing s with
  | nil => simp [processRow]
  | cons px rest ih =>
    rw [processRow, List.foldl_cons, ← processRow, ih]
    simp [Scans.push_pixel]

/-- Clearing the buffer after a row restores the fresh state. -/
theorem processRow_clear (d : ℚ) (row : List Pixel) :
    (processRow (Scans.new d) row).clear = Scans.new d := by
  rw [processRow_eq]
  rfl

/-- C4: the segments appended to the tone stream for an image row are
exactly, in this order: one porch (1500 Hz, 1.5 ms), the `W` green scan
segments, one porch, the `W` blue scan segments, one sync pulse
(1200 Hz, 9 ms), one porch, then the `W` red scan segments, where `W` is the
row's pixel count; the remaining rows then continue from a cleared buffer. -/
theorem row_framing_order (r : List Pixel) (rest : List (List Pixel)) (d : ℚ) :
    encodeRows (r :: rest) (Scans.new d) =
      ([porch] ++ r.map (fun px => transmit (color_to_freq px.g) d) ++
       [porch] ++ r.map (fun px => transmit (color_to_freq px.b) d) ++
       [syncPulse] ++ [porch] ++ r.map (fun px => transmit (color_to_freq px.r) d)) ++
      encodeRows rest (Scans.new d) ∧
    (r.map (fun px => transmit (color_to_freq px.g) d)).length = r.length ∧
    (r.map (fun px => transmit (color_to_freq px.b) d)).length = r.length ∧
    (r.map (fun px => transmit (color_to_freq px.r) d)).length = r.length := by
  refine ⟨?_, by simp, by simp, by simp⟩
  rw [encodeRows, processRow_clear, processRow_eq]
  simp [rowFrame, Scans.new]

/-- C8: for a row of `W` pixels processed left to right, the three channel
sequences each contain exactly `W` segments, every segment carries the
configured per-pixel duration, and after any prefix of the row the three
sequences have equal length. -/
theorem scan_lengths (row : List Pixel) (d : ℚ) :
    (processRow (Scans.new d) row).red_samples.length = row.length ∧
    (processRow (Scans.new d) row).green_samples.length = row.length ∧
    (processRow (Scans.new d) row).blue_samples.length = row.length ∧
    (processRow (Scans.new d) row).red_samples.Forall (fun fd => fd.duration = d) ∧
    (processRow (Scans.new d) row).green_samples.Forall (fun fd => fd.duration = d) ∧
    (processRow (Scans.new d) row).blue_samples.Forall (fun fd => fd.duration = d) ∧
    ∀ k,
      (processRow (Scans.new d) (row.take k)).red_samples.length =
        (processRow (Scans.new d) (row.take k)).green_samples.length ∧
      (processRow (Scans.new d) (row.take k)).green_samples.length =
        (processRow (Scans.new d) (row.take k)).blue_samples.length := by
  refine ⟨?_, ?_, ?_, ?_, ?_, ?_, ?_⟩
  · rw [processRow_eq]; simp [Scans.new]
  · rw [processRow_eq]; simp [Scans.new]
  · rw [processRow_eq]; simp [Scans.new]
  · rw [processRow_eq, List.forall_iff_forall_mem]
    intro fd hfd
    simp [Scans.new] at hfd
    obtain ⟨px, _, rfl⟩ := hfd
    rfl
  · rw [processRow_eq, List.forall_iff_forall_mem]
    intro fd hfd
    simp [Scans.new] at hfd
    obtain ⟨px, _, rfl⟩ := hfd
    rfl
  · rw [processRow_eq, List.forall_iff_forall_mem]
    intro fd hfd
    simp [Scans.new] at hfd
    obtain ⟨px, _, rfl⟩ := hfd
    rfl
  · intro k
    rw [processRow_eq]
    simp [Scans.new]

/-- C6: the channel intensity-to-frequency mapping is the affine map
`freq(v) = 1500 + v * (2300 - 1500) / 255`; it sends 0 to 1500 and 255 to
2300, is strictly increasing, and stays within [1500, 2300] on [0, 255]. -/
theorem color_to_freq_spec (v w : ℕ) (hv : v ≤ 255) (_hw : w ≤ 255) :
    color_to_freq v = 1500 + (v : ℚ) * ((2300 - 1500) / 255) ∧
    color_to_freq 0 = 1500 ∧
    color_to_freq 255 = 2300 ∧
    (v < w → color_to_freq v < color_to_freq w) ∧
    1500 ≤ color_to_freq v ∧ color_to_freq v ≤ 2300 := by
  have hv255 : (v : ℚ) ≤ 255 := by exact_mod_cast hv
  have hv0 : (0 : ℚ) ≤ (v : ℚ) := by positivity
  refine ⟨by unfold color_to_freq; ring, by norm_num [color_to_freq],
    by norm_num [color_to_freq], ?_, ?_, ?_⟩
  · intro hvw
    have hq : (v : ℚ) < (w : ℚ) := by exact_mod_cast hvw
    unfold color_to_freq
    nlinarith
  · unfold color_to_freq
    nlinarith
  · unfold color_to_freq
    nlinarith

/-- C6 witness: the mapping theorem instantiated at the pixel values 3
and 7. -/
theorem color_to_freq_spec_witness :
    3 ≤ 255 ∧ 7 ≤ 255 ∧
    (color_to_freq 3 = 1500 + (3 : ℚ) * ((2300 - 1500) / 255) ∧
     color_to_freq 0 = 1500 ∧
     color_to_freq 255 = 2300 ∧
     (3 < 7 → color_to_freq 3 < color_to_freq 7) ∧
     1500 ≤ color_to_freq 3 ∧ color_to_freq 3 ≤ 2300) :=
  ⟨by decide, by decide, color_to_freq_spec 3 7 (by decide) (by decide)⟩

/-- The sample period `dt = 1.0 / rate` from `render`. -/
def dtOf (rate : ℕ) : ℚ := 1 / (rate : ℚ)

/-- The per-segment sample count from `render`'s loop bound:
`(item.duration as f64 / 1000.0 / dt) as u32` (truncating cast; a negative
value casts to 0). -/
def numSamples (d : ℚ) (rate : ℕ) : ℕ :=
  (⌊d / 1000 / dtOf rate⌋).toNat

/-- Total sample count of a segment list at a given rate. -/
def totalSamples (rate : ℕ) (items : List FreqDur) : ℕ :=
  (items.map (fun s => numSamples s.duration rate)).sum

/-- The render loop: for each segment emit its samples as
(accumulator value, segment frequency) pairs, advancing the accumulator by
`dt` per sample and never resetting it; also return the final accumulator. -/
def renderAcc (rate : ℕ) : List FreqDur → ℚ → List (ℚ × ℚ) × ℚ
  | [], p => ([], p)
  | seg :: rest, p =>
    let n := numSamples seg.duration rate
    let pts := (List.range n).map (fun i : ℕ => (p + (i : ℚ) * dtOf rate, seg.frequency))
    let r := renderAcc rate rest (p + (n : ℚ) * dtOf rate)
    (pts ++ r.1, r.2)

/-- The accumulator's initial value from `render`: `let mut p = dt / 2.0`. -/
def pInit (rate : ℕ) : ℚ := dtOf rate / 2

/-- `render(items, writer, baseband)`'s timing behaviour: the (time,
frequency) pairs of all emitted samples, plus the final accumulator. -/
def render (items : List FreqDur) (rate : ℕ) : List (ℚ × ℚ) × ℚ :=
  renderAcc rate items (pInit rate)

/-- `TAU = PI * 2.0` from the source. -/
noncomputable def TAU : ℝ := Real.pi * 2

/-- The sample value the source computes at accumulator `p` for a segment of
frequency `f` with baseband `B`:
`p.mul(TAU).mul(f).sin().mul(0.8).add(B.mul(TAU).sin().mul(0.2))`.
Note the baseband factor has no `p` in it. -/
noncomputable def codeSample (p f B : ℝ) : ℝ :=
  Real.sin (p * TAU * f) * 0.8 + Real.sin (B * TAU) * 0.2

/-- Modelled from the spec: the sample formula the spec states,
`0.8 * sin(2π * f * t) + 0.2 * sin(2π * B * t)`, for comparison with
`codeSample`. -/
noncomputable def specSampleFormula (t f B : ℝ) : ℝ :=
  0.8 * Real.sin (TAU * f * t) + 0.2 * Real.sin (TAU * B * t)

/-- All sample values the renderer emits for a segment list, in order. -/
noncomputable def renderSamples (items : List FreqDur) (rate : ℕ) (B : ℝ) : List ℝ :=
  (render items rate).1.map (fun q => codeSample (q.1 : ℝ) (q.2 : ℝ) B)

/-- The render loop in closed form: the emitted sample times form one
arithmetic progression of step `dt` starting at the incoming accumulator,
and the final accumulator is the start plus `dt` times the total sample
count. -/
theorem renderAcc_eq (rate : ℕ) (items : List FreqDur) (p : ℚ) :
    (renderAcc rate items p).1.map Prod.fst =
      (List.range (totalSamples rate items)).map (fun i : ℕ => p + (i : ℚ) * dtOf rate) ∧
    (renderAcc rate items p).2 = p + (totalSamples rate items : ℚ) * dtOf rate := by
  induction items generalizing p with
  | nil => simp [renderAcc, totalSamples]
  | cons seg rest ih =>
    obtain ⟨ih1, ih2⟩ := ih (p + (numSamples seg.duration rate : ℚ) * dtOf rate)
    have hts : totalSamples rate (seg :: rest) =
        numSamples seg.duration rate + totalSamples rate rest := by
      simp [totalSamples]
    constructor
    · rw [renderAcc]
      simp only [List.map_append, List.map_map, hts, List.range_add, ih1]
      congr 1
      apply List.map_congr_left
      intro i _
      simp only [Function.comp_apply]
      push_cast
      ring
    · rw [renderAcc]
      simp only [ih2, hts]
      push_cast
      ring

/-- C5: the renderer's time accumulator starts at `0.5 / rate`, the emitted
sample times are exactly `0.5 / rate + i / rate` for consecutive `i` (so the
accumulator advances by exactly one sample period per sample and is never
reset, within a segment or across segment boundaries), the times are
strictly increasing over the whole stream, and the accumulator value at the
start of segment `k + 1` equals its value at the end of segment `k`. -/
theorem render_time_accumulator (items : List FreqDur) (rate : ℕ) (h : 0 < rate) :
    pInit rate = 0.5 / (rate : ℚ) ∧
    (render items rate).1.map Prod.fst =
      (List.range (totalSamples rate items)).map
        (fun i : ℕ => 0.5 / (rate : ℚ) + (i : ℚ) * (1 / (rate : ℚ))) ∧
    List.Pairwise (· < ·) ((render items rate).1.map Prod.fst) ∧
    ∀ k, (renderAcc rate (items.take (k + 1)) (pInit rate)).2 =
      (renderAcc rate (items.take k) (pInit rate)).2 +
        (numSamples ((items.getD k (transmit 0 0)).duration) rate : ℚ) * dtOf rate := by
  have hp : pInit rate = 0.5 / (rate : ℚ) := by
    unfold pInit dtOf
    ring
  have hdt : 0 < dtOf rate := by
    unfold dtOf
    positivity
  obtain ⟨h1, _⟩ := renderAcc_eq rate items (pInit rate)
  refine ⟨hp, ?_, ?_, ?_⟩
  · rw [render, h1, hp]
    rfl
  · rw [render, h1]
    refine (List.pairwise_lt_range _).map _ ?_
    intro a b hab
    have : (a : ℚ) < (b : ℚ) := by exact_mod_cast hab
    nlinarith
  · intro k
    obtain ⟨_, e1⟩ := renderAcc_eq rate (items.take (k + 1)) (pInit rate)
    obtain ⟨_, e2⟩ := renderAcc_eq rate (items.take k) (pInit rate)
    rw [e1, e2]
    have hsum : totalSamples rate (items.take (k + 1)) =
        totalSamples rate (items.take k) +
          numSamples ((items.getD k (transmit 0 0)).duration) rate := by
      rw [List.take_succ]
      unfold totalSamples
      rw [List.map_append, List.sum_append]
      cases hk : items[k]? with
      | none =>
        simp [List.getD, hk, numSamples, transmit]
      | some a =>
        simp [List.getD, hk]
    rw [hsum]
    push_cast
    ring

/-- C5 witness: the accumulator theorem instantiated at a concrete
two-segment stream and rate 1000. -/
theorem render_time_accumulator_witness :
    0 < 1000 ∧
    (pInit 1000 = 0.5 / (1000 : ℚ) ∧
     (render [transmit 1500 1, transmit 2300 2] 1000).1.map Prod.fst =
       (List.range (totalSamples 1000 [transmit 1500 1, transmit 2300 2])).map
         (fun i : ℕ => 0.5 / (1000 : ℚ) + (i : ℚ) * (1 / (1000 : ℚ))) ∧
     List.Pairwise (· < ·)
       ((render [transmit 1500 1, transmit 2300 2] 1000).1.map Prod.fst) ∧
     ∀ k, (renderAcc 1000 ([transmit 1500 1, transmit 2300 2].take (k + 1)) (pInit 1000)).2 =
       (renderAcc 1000 ([transmit 1500 1, transmit 2300 2].take k) (pInit 1000)).2 +
         (numSamples (([transmit 1500 1, transmit 2300 2].getD k (transmit 0 0)).duration)
           1000 : ℚ) * dtOf 1000) :=
  ⟨by decide, render_time_accumulator [transmit 1500 1, transmit 2300 2] 1000 (by decide)⟩

/-- C7: a segment of non-negative duration `d` ms at rate `r` renders exactly
`⌊d / 1000 * r⌋` samples (the truncated fractional count), independently of
the accumulator value reached by the preceding segments; a zero-duration
segment renders zero samples. -/
theorem render_sample_count (d : ℚ) (rate : ℕ) (_hd : 0 ≤ d) :
    numSamples d rate = (⌊d / 1000 * (rate : ℚ)⌋).toNat ∧
    numSamples 0 rate = 0 ∧
    ∀ (f : ℚ) (rest : List FreqDur) (p : ℚ),
      ((renderAcc rate (transmit f d :: rest) p).1).length =
        (⌊d / 1000 * (rate : ℚ)⌋).toNat +
          ((renderAcc rate rest
            (p + (numSamples d rate : ℚ) * dtOf rate)).1).length := by
  have hdiv : d / 1000 / dtOf rate = d / 1000 * (rate : ℚ) := by
    unfold dtOf
    rw [div_div_eq_mul_div, div_one]
  have hns : numSamples d rate = (⌊d / 1000 * (rate : ℚ)⌋).toNat := by
    unfold numSamples
    rw [hdiv]
  refine ⟨hns, by simp [numSamples], ?_⟩
  intro f rest p
  rw [renderAcc]
  simp only [List.length_append, List.length_map, List.length_range, transmit]
  rw [hns]

/-- C7 witness: a 3 ms segment at 44100 Hz renders ⌊132.3⌋ = 132 samples,
and the count is position-independent. -/
theorem render_sample_count_witness :
    (0 : ℚ) ≤ 3 ∧
    (numSamples 3 44100 = (⌊(3 : ℚ) / 1000 * (44100 : ℚ)⌋).toNat ∧
     numSamples 0 44100 = 0 ∧
     ∀ (f : ℚ) (rest : List FreqDur) (p : ℚ),
       ((renderAcc 44100 (transmit f 3 :: rest) p).1).length =
         (⌊(3 : ℚ) / 1000 * (44100 : ℚ)⌋).toNat +
           ((renderAcc 44100 rest
             (p + (numSamples 3 44100 : ℚ) * dtOf 44100)).1).length) :=
  ⟨by norm_num, render_sample_count 3 44100 (by norm_num)⟩

/-- C9: every sample value the renderer emits lies in [-1, 1], for every
segment list, rate, and baseband frequency, since it is a sum of a sine
scaled by 0.8 and a sine scaled by 0.2. -/
theorem render_samples_bounded (items : List FreqDur) (rate : ℕ) (B : ℝ) :
    (renderSamples items rate B).Forall (fun x => -1 ≤ x ∧ x ≤ 1) := by
  rw [List.forall_iff_forall_mem]
  intro x hx
  rw [renderSamples, List.mem_map] at hx
  obtain ⟨q, _, rfl⟩ := hx
  unfold codeSample
  have s1 := Real.neg_one_le_sin ((q.1 : ℝ) * TAU * (q.2 : ℝ))
  have s2 := Real.sin_le_one ((q.1 : ℝ) * TAU * (q.2 : ℝ))
  have s3 := Real.neg_one_le_sin (B * TAU)
  have s4 := Real.sin_le_one (B * TAU)
  constructor <;> nlinarith

/-- C1 counterexample: at the very first sample of the program's stream
(accumulator `0.5 / 44100 = 1/88200`, segment frequency 1500 Hz, baseband
400 Hz) the value the code computes differs from the spec's formula
`0.8·sin(2πft) + 0.2·sin(2πBt)`: the code's baseband term is
`0.2·sin(2π·400)`, which is 0, while the spec's `0.2·sin(2π·400·t)` is
positive there. -/
theorem render_baseband_mismatch :
    codeSample (1 / 88200) 1500 400 ≠ specSampleFormula (1 / 88200) 1500 400 := by
  intro h
  unfold codeSample specSampleFormula at h
  have hfirst : Real.sin ((1 / 88200 : ℝ) * TAU * 1500) =
      Real.sin (TAU * 1500 * (1 / 88200)) := by
    ring_nf
  have h1 : Real.sin ((400 : ℝ) * TAU) = 0 := by
    have harg : (400 : ℝ) * TAU = (800 : ℕ) * Real.pi := by
      unfold TAU
      push_cast
      ring
    rw [harg, Real.sin_nat_mul_pi]
  have h2 : 0 < Real.sin (TAU * (400 : ℝ) * (1 / 88200)) := by
    have harg : TAU * (400 : ℝ) * (1 / 88200) = Real.pi * (800 / 88200) := by
      unfold TAU
      ring
    rw [harg]
    apply Real.sin_pos_of_pos_of_lt_pi
    · positivity
    · nlinarith [Real.pi_pos]
  rw [hfirst, h1] at h
  nlinarith [h, h2]

end SSTV
